import Mathlib

/-!
Verification development for the SVG3 animation engine
(`src/svg3-complete.js`, class `AnimationEngine`).

The engine is embedded shallowly:

* JavaScript numbers are modelled as rationals (`ℚ`).  The single place
  where the engine can produce a NaN vector (the keyframe interpolation
  dividing by zero, see `applyKeyframeAnimation`) is modelled by an
  `Option`: `none` stands for the all-NaN vector.
* The mutable node objects held in the `objects` map are modelled as
  association lists from property name to property value, and the map
  itself as an association list from identifier to node.  Mutation of a
  node becomes a functional update of the registry.
* `activeAnimations` (a JS `Map`, insertion ordered, unique keys) is an
  association list from key string to track state; `Map.set` is `alistSet`,
  which replaces in place or appends.
-/

set_option maxHeartbeats 1000000

namespace SVG3

/-- A property value: `some v` is the numeric vector `v`; `none` models the
all-NaN vector which the keyframe path can write (see
`applyKeyframeAnimation`). -/
abbrev PropVal := Option (List ℚ)

/-- A scene node: association list from property name to property value.
Claims only exercise non-dotted property paths, so property access is
modelled at the granularity of whole attribute names. -/
abbrev Node := List (String × PropVal)

/-- The node registry passed to `update` as `objects`: association list
from identifier to node. -/
abbrev Registry := List (String × Node)

/-- First value bound to key `k`, the lookup of a JS `Map` or of a plain
object property (`none` models `undefined`). -/
def alistFind {α : Type} (k : String) : List (String × α) → Option α
  | [] => none
  | (k2, v) :: rest => if k = k2 then some v else alistFind k rest

/-- `Map.set` / property assignment: replace the binding of `k` in place,
or append a fresh binding when `k` is absent. -/
def alistSet {α : Type} (k : String) (v : α) : List (String × α) → List (String × α)
  | [] => [(k, v)]
  | (k2, v2) :: rest => if k = k2 then (k, v) :: rest else (k2, v2) :: alistSet k v rest

theorem alistFind_alistSet_same {α : Type} (k : String) (v : α) (l : List (String × α)) :
    alistFind k (alistSet k v l) = some v := by
  induction l with
  | nil => simp [alistFind, alistSet]
  | cons p rest ih =>
    by_cases h : k = p.1
    · simp [alistSet, alistFind, h]
    · simp [alistSet, alistFind, h, ih]

theorem alistFind_alistSet_other {α : Type} (k k2 : String) (v : α) (l : List (String × α))
    (h : k2 ≠ k) : alistFind k2 (alistSet k v l) = alistFind k2 l := by
  induction l with
  | nil => simp [alistFind, alistSet, h]
  | cons p rest ih =>
    by_cases h2 : k = p.1
    · subst h2
      simp [alistSet, alistFind, h]
    · by_cases h3 : k2 = p.1 <;> simp [alistSet, alistFind, h2, h3, ih]

theorem alistSet_self {α : Type} (k : String) (v : α) (l : List (String × α))
    (h : alistFind k l = some v) : alistSet k v l = l := by
  induction l with
  | nil => simp [alistFind] at h
  | cons p rest ih =>
    obtain ⟨k1, v1⟩ := p
    by_cases h2 : k = k1
    · subst h2
      simp [alistFind] at h
      simp [alistSet, h]
    · simp [alistFind, h2] at h
      simp [alistSet, h2, ih h]

theorem alistSet_keys {α : Type} (k : String) (v : α) (l : List (String × α))
    (h : (alistFind k l).isSome) :
    (alistSet k v l).map Prod.fst = l.map Prod.fst := by
  induction l with
  | nil => simp [alistFind] at h
  | cons p rest ih =>
    by_cases h2 : k = p.1
    · simp [alistSet, h2]
    · simp [alistFind, h2] at h
      simp [alistSet, h2, ih h]

theorem alistSet_length_of_mem {α : Type} (k : String) (v : α) (l : List (String × α))
    (h : (alistFind k l).isSome) : (alistSet k v l).length = l.length := by
  have := alistSet_keys k v l h
  have h1 : ((alistSet k v l).map Prod.fst).length = (l.map Prod.fst).length := by rw [this]
  simpa using h1

theorem alistSet_length_of_not_mem {α : Type} (k : String) (v : α) (l : List (String × α))
    (h : alistFind k l = none) : (alistSet k v l).length = l.length + 1 := by
  induction l with
  | nil => simp [alistSet]
  | cons p rest ih =>
    by_cases h2 : k = p.1
    · simp [alistFind, h2] at h
    · simp [alistFind, h2] at h
      simp [alistSet, h2, ih h]

/-- Keys of an association list determine whether a lookup succeeds. -/
theorem alistFind_isSome_of_keys_eq {α β : Type} (k : String)
    (l1 : List (String × α)) (l2 : List (String × β))
    (h : l1.map Prod.fst = l2.map Prod.fst) :
    (alistFind k l1).isSome = (alistFind k l2).isSome := by
  induction l1 generalizing l2 with
  | nil =>
    cases l2 with
    | nil => rfl
    | cons q r => simp at h
  | cons p rest ih =>
    cases l2 with
    | nil => simp at h
    | cons q r =>
      simp at h
      obtain ⟨h1, h2⟩ := h
      by_cases hk : k = p.1
      · simp [alistFind, hk, h1.symm]
      · rw [h1] at hk
        simp [alistFind, hk, ih r h2, h1]

/-! ## parseTime

Source: `AnimationEngine.parseTime` matches the input against the regex
caret `([\d.]+)(s|ms)?` dollar, returns 0 when there is no match, and
otherwise returns `parseFloat` of the first group, divided by 1000 when
the unit group is `ms`.

The regex anchors at both ends; since neither `s` nor `ms` contains a
digit or a dot, a successful match necessarily splits the string into its
longest digit-or-dot run followed by a remainder that is exactly empty,
`s`, or `ms`.  `timeMatch` computes that decomposition. -/

/-- Character class `[\d.]` of the parseTime regex. -/
def isTimeChar (c : Char) : Bool := c.isDigit || c = '.'

/-- The match of `/^([\d.]+)(s|ms)?$/` on a string, as the pair
(numeric group, unit group); `none` when the regex does not match. -/
def timeMatch (s : String) : Option (List Char × List Char) :=
  let cs := s.toList
  let numPart := cs.takeWhile isTimeChar
  let suffix := cs.dropWhile isTimeChar
  if numPart = [] then none
  else if suffix = [] ∨ suffix = ['s'] ∨ suffix = ['m', 's'] then some (numPart, suffix)
  else none

/-- Value of a digit string read in base 10. -/
def digitsVal (ds : List Char) : ℕ :=
  ds.foldl (fun acc c => 10 * acc + (c.toNat - '0'.toNat)) 0

/-- JS `parseFloat` restricted to strings of digits and dots (the only
inputs it receives from the parseTime regex group): leading digits, an
optional dot with following digits, everything after that ignored; `none`
models the NaN returned when no digit is found (for example on "."). -/
def parseFloatNum (cs : List Char) : Option ℚ :=
  let intPart := cs.takeWhile Char.isDigit
  let rest := cs.dropWhile Char.isDigit
  match rest with
  | '.' :: rest2 =>
    let fracPart := rest2.takeWhile Char.isDigit
    if intPart = [] ∧ fracPart = [] then none
    else some ((digitsVal intPart : ℚ) + (digitsVal fracPart : ℚ) / (10 : ℚ) ^ fracPart.length)
  | _ => if intPart = [] then none else some ((digitsVal intPart : ℚ))

/-- `AnimationEngine.parseTime`.  Result `some q` is the parsed time in
seconds; `none` models a NaN result (regex matched but the group held no
digit, for example "."). A non-matching string yields `some 0`. -/
def parseTime (timeStr : String) : Option ℚ :=
  match timeMatch timeStr with
  | none => some 0
  | some (numPart, suffix) =>
    (parseFloatNum numPart).map (fun v => if suffix = ['m', 's'] then v / 1000 else v)

/-! ## Interpolation

`AnimationEngine.applySimpleAnimation` computes
`fromValues.map((v, i) => v + (toValues[i] - v) * progress)` and writes
the result; the write is factored out below (`writeTarget`), this
function returns the computed vector.  The positional index `i` into
`toValues` is realized by peeling both lists together; an out-of-range
`toValues[i]` is `undefined` in JS and the component would be NaN — such
mismatched tracks fall outside the wellformedness under which tracks are
evaluated here (spec section 3) and are defaulted. -/

/-- Componentwise linear interpolation of `AnimationEngine.applySimpleAnimation`. -/
def applySimpleAnimation : List ℚ → List ℚ → ℚ → List ℚ
  | [], _, _ => []
  | a :: rest, toValues, progress =>
    (a + (toValues.headD 0 - a) * progress) :: applySimpleAnimation rest toValues.tail progress

/-- The keyframe search loop of `AnimationEngine.applyKeyframeAnimation`:
starting from 0, every index `i` with `keyTimes[i] <= progress` overwrites
the candidate, so the result is the last such index. -/
def keyframeIndex (keyTimes : List ℚ) (progress : ℚ) : ℕ :=
  (List.range keyTimes.length).foldl
    (fun k i => if keyTimes.getD i 0 ≤ progress then i else k) 0

/-- `AnimationEngine.applyKeyframeAnimation`, value part.  When the two
selected keyTimes coincide the source divides by zero: the selected index
is then necessarily the last one, `nextKeyIndex = keyIndex`, so every
component computes `curr + (curr - curr) * (x / 0)` which is NaN in JS
(`0 * Infinity` and `0 * NaN` are NaN); this all-NaN outcome is `none`.
Otherwise the source interpolates `values[keyIndex]` toward
`values[nextKeyIndex]` with the same componentwise lerp as
`applySimpleAnimation`. -/
def applyKeyframeAnimation (vals : List (List ℚ)) (keyTimes : List ℚ) (progress : ℚ) :
    Option (List ℚ) :=
  let keyIndex := keyframeIndex keyTimes progress
  let nextKeyIndex := min (keyIndex + 1) (keyTimes.length - 1)
  let denom := keyTimes.getD nextKeyIndex 0 - keyTimes.getD keyIndex 0
  if denom = 0 then none
  else
    let keyProgress := (progress - keyTimes.getD keyIndex 0) / denom
    some (applySimpleAnimation (vals.getD keyIndex []) (vals.getD nextKeyIndex []) keyProgress)

/-! ## Engine state -/

/-- The `repeatCount` field of a track.  In the source it is the string
of the document attribute, replaced by a number once decremented; the
update loop only distinguishes the literal string `indefinite` from
`parseInt` of the field, so both shapes collapse to this sum. -/
inductive RepeatCount where
  | indefinite
  | count (n : ℤ)
deriving DecidableEq

/-- One entry of `activeAnimations`, as built by
`AnimationEngine.registerAnimation`.  `fromV` and `toV` hold the numeric
vectors that `parseValues` extracts from the attribute strings at every
evaluation (the strings never change, so the parsed vectors are stored
directly); `endTime` is stored by the source but never read by `update`
and is omitted. -/
structure Anim where
  targetId : String
  attributeName : String
  fromV : List ℚ
  toV : List ℚ
  values : Option (List (List ℚ))
  keyTimes : Option (List ℚ)
  startTime : ℚ
  duration : ℚ
  repeatCount : RepeatCount
  fill : String
  startValue : Option (Option PropVal)
  isActive : Bool
  hasStarted : Bool
  elapsed : ℚ
deriving DecidableEq

/-- The engine clock. -/
structure Clock where
  time : ℚ
  delta : ℚ
deriving DecidableEq

/-- The `AnimationEngine` instance state. -/
structure Engine where
  activeAnimations : List (String × Anim)
  clock : Clock
deriving DecidableEq

/-- A fresh engine, as built by the constructor. -/
def Engine.init : Engine := { activeAnimations := [], clock := { time := 0, delta := 0 } }

/-- The argument record of `registerAnimation` (the animation data the
parser extracts from an `animate` element), with vectors already parsed
as for `Anim`. -/
structure AnimationData where
  attributeName : String
  fromV : List ℚ
  toV : List ℚ
  values : Option (List (List ℚ))
  keyTimes : Option (List ℚ)
  dur : String
  begin : String
  repeatCount : RepeatCount
  fill : String
deriving DecidableEq

/-- `AnimationEngine.registerAnimation`: stores a fresh track state under
the key `targetId + "-" + attributeName`; a `Map.set` on an existing key
replaces the entry in place.  `parseTime` yields a NaN (`none`) only for
a matching group with no digit (such as "."); no such time string occurs
in this development, and the NaN case is defaulted to 0. -/
def registerAnimation (e : Engine) (targetId : String) (d : AnimationData) : Engine :=
  let key := targetId ++ "-" ++ d.attributeName
  { e with
    activeAnimations := alistSet key
      { targetId := targetId
        attributeName := d.attributeName
        fromV := d.fromV
        toV := d.toV
        values := d.values
        keyTimes := d.keyTimes
        startTime := (parseTime d.begin).getD 0
        duration := (parseTime d.dur).getD 0
        repeatCount := d.repeatCount
        fill := d.fill
        startValue := none
        isActive := false
        hasStarted := false
        elapsed := 0 } e.activeAnimations }

/-! ## update -/

/-- `getPropertyValue(obj, propName)` for the non-dotted property paths
exercised here: the named field of the node (`none` is `undefined`). -/
def getPropertyValue (obj : Node) (propName : String) : Option PropVal :=
  alistFind propName obj

/-- `setPropertyValue(obj, propName, value)` for a non-dotted path:
assigns the field on the node. -/
def setPropertyValue (obj : Node) (propName : String) (v : PropVal) : Node :=
  alistSet propName v obj

/-- Functional counterpart of mutating, through `setPropertyValue`, the
node object that `objects.get(targetId)` returned: the registry with that
node updated in place (identity when the identifier is absent, in which
case the source never reaches the write). -/
def writeTarget (r : Registry) (targetId attr : String) (v : PropVal) : Registry :=
  match r with
  | [] => []
  | (id2, node) :: rest =>
    if targetId = id2 then (id2, setPropertyValue node attr v) :: rest
    else (id2, node) :: writeTarget rest targetId attr v

/-- The start check of `update`: when the track has not started and the
clock has reached `startTime`, mark it started and active and capture the
current property value as `startValue`. -/
def startedAnim (t : ℚ) (obj : Node) (a : Anim) : Anim :=
  if ¬a.hasStarted ∧ a.startTime ≤ t then
    { a with hasStarted := true, isActive := true,
             startValue := some (getPropertyValue obj a.attributeName) }
  else a

/-- `progress = Math.min(anim.elapsed / anim.duration, 1)` with
`anim.elapsed = clock.time - anim.startTime`.  Durations are positive for
every track considered here (spec section 3); at duration 0 the JS
division yields Infinity or NaN where the rational division yields 0. -/
def progressOf (t : ℚ) (a : Anim) : ℚ :=
  min ((t - a.startTime) / a.duration) 1

/-- The value the track writes at clock time `t`: the keyframe path when
both `values` and `keyTimes` are present (both are truthy in the source
whenever present, including empty arrays), the simple path otherwise. -/
def trackValue (t : ℚ) (a : Anim) : PropVal :=
  match a.values, a.keyTimes with
  | some vs, some kts => applyKeyframeAnimation vs kts (progressOf t a)
  | _, _ => some (applySimpleAnimation a.fromV a.toV (progressOf t a))

/-- The end-of-cycle handling of `update`, entered when `progress >= 1`:
an indefinite track resets `elapsed` and `hasStarted`; a finite count
greater than 1 decrements and resets; otherwise the track is deactivated
(the branch for `fill !== freeze` has an empty body in the source). -/
def finishAnim (t : ℚ) (a : Anim) : Anim :=
  if 1 ≤ progressOf t a then
    match a.repeatCount with
    | .indefinite => { a with elapsed := 0, hasStarted := false }
    | .count n =>
      if 1 < n then { a with repeatCount := .count (n - 1), elapsed := 0, hasStarted := false }
      else { a with isActive := false }
  else a

/-- The per-track body of the `activeAnimations.forEach` in
`AnimationEngine.update`, at clock time `t`: look the target up (a
missing target returns immediately), run the start check, and when
active write the evaluated value and run the end check.  Returns the
updated registry and the updated track state. -/
def stepAnim (t : ℚ) (r : Registry) (a : Anim) : Registry × Anim :=
  match alistFind a.targetId r with
  | none => (r, a)
  | some obj =>
    let a1 := startedAnim t obj a
    if a1.isActive then
      (writeTarget r a1.targetId a1.attributeName (trackValue t a1),
       finishAnim t { a1 with elapsed := t - a1.startTime })
    else (r, a1)

/-- The whole `forEach` pass: every track stepped in insertion order,
threading the registry (each track sees the writes of earlier tracks, as
the JS code sees them through the shared mutable nodes). -/
def stepAll (t : ℚ) : List (String × Anim) → Registry → List (String × Anim) × Registry
  | [], r => ([], r)
  | (k, a) :: rest, r =>
    let s := stepAnim t r a
    let tail := stepAll t rest s.1
    ((k, s.2) :: tail.1, tail.2)

/-- `AnimationEngine.update(deltaTime, objects)`: advance the clock, then
run the `forEach` pass; returns the new engine state and the registry
reflecting all node mutations. -/
def update (e : Engine) (deltaTime : ℚ) (objects : Registry) : Engine × Registry :=
  let t := e.clock.time + deltaTime
  let s := stepAll t e.activeAnimations objects
  ({ activeAnimations := s.1, clock := { time := t, delta := deltaTime } }, s.2)

/-- Node property read used by the theorems: the value of property
`attr` of the node registered under `targetId`. -/
def getProp (r : Registry) (targetId attr : String) : Option PropVal :=
  (alistFind targetId r).bind (fun node => alistFind attr node)

/-! ## Concrete scenarios -/

/-- The indefinite rotation track of the periodicity scenario:
from `[0,0,0]` to `[0,6.28,0]` (6.28 = 157/25), dur 8s, begin 0s. -/
def rotIndefData : AnimationData :=
  { attributeName := "rotation", fromV := [0, 0, 0], toV := [0, 157/25, 0],
    values := none, keyTimes := none, dur := "8s", begin := "0s",
    repeatCount := .indefinite, fill := "freeze" }

/-- Engine holding only the indefinite rotation track. -/
def rotEngine : Engine := registerAnimation Engine.init "box" rotIndefData

/-- Registry with the target node of the rotation scenarios. -/
def rotRegistry : Registry := [("box", [("rotation", some [0, 0, 0])])]

/-- The finite-repeat track of the repeat scenario: from `[0]` to `[8]`,
dur 8s, begin 0s, repeatCount 3, fill freeze, on property position. -/
def repeatData : AnimationData :=
  { attributeName := "position", fromV := [0], toV := [8],
    values := none, keyTimes := none, dur := "8s", begin := "0s",
    repeatCount := .count 3, fill := "freeze" }

/-- Engine holding only the finite-repeat track. -/
def repeatEngine : Engine := registerAnimation Engine.init "box" repeatData

/-- Registry with the target node of the finite-repeat scenario. -/
def posRegistry : Registry := [("box", [("position", some [0])])]

/-- Registry state after each advance(4) of the finite-repeat scenario. -/
def repeatStep1 : Engine × Registry := update repeatEngine 4 posRegistry

/-- Second advance(4) of the finite-repeat scenario. -/
def repeatStep2 : Engine × Registry := update repeatStep1.1 4 repeatStep1.2

/-- Third advance(4) of the finite-repeat scenario. -/
def repeatStep3 : Engine × Registry := update repeatStep2.1 4 repeatStep2.2

/-- A simple track whose target node starts at a value different from its
`fromV`, used for the advance(0) scenarios. -/
def zeroDeltaData : AnimationData :=
  { attributeName := "rotation", fromV := [0, 0, 0], toV := [1, 1, 1],
    values := none, keyTimes := none, dur := "8s", begin := "0s",
    repeatCount := .count 1, fill := "freeze" }

/-- Engine holding only the advance(0) scenario track. -/
def zeroDeltaEngine : Engine := registerAnimation Engine.init "box" zeroDeltaData

/-- Registry whose node starts at rotation `[5,5,5]`. -/
def zeroDeltaRegistry : Registry := [("box", [("rotation", some [5, 5, 5])])]

/-- A descriptor whose `fromV` has length 2 but `toV` length 3. -/
def mismatchedData : AnimationData :=
  { attributeName := "rotation", fromV := [0, 0], toV := [1, 2, 3],
    values := none, keyTimes := none, dur := "1s", begin := "0s",
    repeatCount := .count 1, fill := "freeze" }

/-! ## C1 -/

/-- Claim C1: the spec asserts that an indefinite track is periodic with
period equal to its duration, and in the scenario from `[0,0,0]` to
`[0,6.28,0]`, dur 8, the second advance(4) should wrap rotation.y back
toward 0.  The code instead computes `elapsed = clock.time - startTime`
from a `startTime` that is never advanced, so the reset
`elapsed = 0; hasStarted = false` at the end of a cycle has no effect:
after the first advance(4) rotation is `[0, 3.14, 0]` as claimed, but
after the second advance(4) it is `[0, 6.28, 0]` (progress stays clamped
at 1), not approximately 0. -/
theorem indefinite_track_second_cycle :
    getProp (update rotEngine 4 rotRegistry).2 "box" "rotation"
      = some (some [0, 157/50, 0]) ∧
    getProp (update (update rotEngine 4 rotRegistry).1 4
        (update rotEngine 4 rotRegistry).2).2 "box" "rotation"
      = some (some [0, 157/25, 0]) := by
  constructor <;> with_unfolding_all rfl

/-! ## C3 -/

/-- Keyframe track of the C3 scenario: values `[[0],[1],[2]]`,
keyTimes `[0, 0.5, 1]`, dur 1s. -/
def keyframeData : AnimationData :=
  { attributeName := "position", fromV := [], toV := [],
    values := some [[0], [1], [2]], keyTimes := some [0, 1/2, 1],
    dur := "1s", begin := "0s", repeatCount := .count 1, fill := "freeze" }

/-- Engine holding only the keyframe track. -/
def keyframeEngine : Engine := registerAnimation Engine.init "box" keyframeData

/-- Claim C3: the spec asserts that at progress equal to the last keyTime
the selected interval index is `n-2` and the final keyframe value is
written.  In the code the search loop selects the largest index with
`keyTimes[i] <= progress`, which at progress 1 is `n-1 = 2`, not 1; the
local progress then divides by `keyTimes[2] - keyTimes[2] = 0` and the
written vector is all NaN (`none`), not `values[2] = [2]`.  Driving the
registered track to completion with advance(1) indeed stores the NaN
vector on the node. -/
theorem keyframe_last_keytime_nan :
    keyframeIndex [0, 1/2, 1] 1 = 2 ∧
    applyKeyframeAnimation [[0], [1], [2]] [0, 1/2, 1] 1 = none ∧
    applyKeyframeAnimation [[0], [1], [2]] [0, 1/2, 1] (1/2) = some [1] ∧
    getProp (update keyframeEngine 1 posRegistry).2 "box" "position" = some none := by
  refine ⟨by with_unfolding_all rfl, by with_unfolding_all rfl, by with_unfolding_all rfl,
    by with_unfolding_all rfl⟩

/-! ## C4 -/

/-- Claim C4: the spec asserts that a repeatCount-3, fill-freeze track
performs exactly 3 full cycles before freezing at the `to` value: at
clock time 12 (4 seconds into the second cycle of the scenario track
from `[0]` to `[8]` with dur 8) the written value should be `[4]`.
Because `elapsed = clock.time - startTime` is never rewound, the code
completes one real cycle and then burns one repeat per `update` call at
progress clamped to 1: the third advance(4) writes `[8]`, not `[4]`, and
the repeat counter has already dropped to 1 after 12 seconds. -/
theorem finite_repeat_cycles_behavior :
    getProp repeatStep1.2 "box" "position" = some (some [4]) ∧
    getProp repeatStep2.2 "box" "position" = some (some [8]) ∧
    getProp repeatStep3.2 "box" "position" = some (some [8]) ∧
    repeatStep3.1.activeAnimations.map (fun p => p.2.repeatCount) = [.count 1] := by
  refine ⟨by with_unfolding_all rfl, by with_unfolding_all rfl, by with_unfolding_all rfl,
    by with_unfolding_all rfl⟩

/-! ## C6 -/

/-- Claim C6 counterexample: `update` performs no validation of the time
delta.  After one advance(4) of the finite-repeat scenario the node is at
`[4]`; calling advance(-1) is not rejected: the clock moves back to 3 and
the active track re-evaluates at the earlier progress, overwriting the
node with `[3]` — the call mutates a node and raises nothing. -/
theorem negative_delta_mutates :
    getProp (update repeatEngine 4 posRegistry).2 "box" "position" = some (some [4]) ∧
    (update (update repeatEngine 4 posRegistry).1 (-1)
        (update repeatEngine 4 posRegistry).2).2
      = [("box", [("position", some [3])])] ∧
    (update (update repeatEngine 4 posRegistry).1 (-1)
        (update repeatEngine 4 posRegistry).2).1.clock.time = 3 := by
  refine ⟨by with_unfolding_all rfl, by with_unfolding_all rfl, by with_unfolding_all rfl⟩

/-- Claim C6, amended: `update` accepts every delta; the clock always
advances by exactly the given delta, negative values included, and the
stored `clock.delta` is the raw argument.  There is no InvalidTimeDelta
rejection path. -/
theorem advance_no_delta_validation (e : Engine) (d : ℚ) (r : Registry) :
    (update e d r).1.clock.time = e.clock.time + d ∧
    (update e d r).1.clock.delta = d := by
  constructor <;> rfl

/-! ## C7 -/

/-- Claim C7 counterexample: registering the descriptor whose `fromV`
has length 2 and `toV` length 3 is not rejected — the track is stored
under its key like any other, with fresh state. -/
theorem mismatched_lengths_registered :
    (alistFind "box-rotation"
      (registerAnimation Engine.init "box" mismatchedData).activeAnimations).isSome = true ∧
    mismatchedData.fromV.length ≠ mismatchedData.toV.length := by
  refine ⟨by with_unfolding_all rfl, by decide⟩

/-- Claim C7, amended: `registerAnimation` performs no validation at all.
Every descriptor, mismatched vector lengths included, is unconditionally
inserted at its key with fresh state; the stored track carries the
descriptor fields unchanged. -/
theorem register_no_validation (e : Engine) (targetId : String) (d : AnimationData) :
    alistFind (targetId ++ "-" ++ d.attributeName)
        (registerAnimation e targetId d).activeAnimations
      = some
        { targetId := targetId
          attributeName := d.attributeName
          fromV := d.fromV
          toV := d.toV
          values := d.values
          keyTimes := d.keyTimes
          startTime := (parseTime d.begin).getD 0
          duration := (parseTime d.dur).getD 0
          repeatCount := d.repeatCount
          fill := d.fill
          startValue := none
          isActive := false
          hasStarted := false
          elapsed := 0 } := by
  exact alistFind_alistSet_same _ _ _

/-! ## C2 -/

theorem applySimpleAnimation_zero (fv tv : List ℚ) :
    applySimpleAnimation fv tv 0 = fv := by
  induction fv generalizing tv with
  | nil => rfl
  | cons a rest ih => simp [applySimpleAnimation, ih]

theorem applySimpleAnimation_one (fv tv : List ℚ) (h : fv.length = tv.length) :
    applySimpleAnimation fv tv 1 = tv := by
  induction fv generalizing tv with
  | nil =>
    cases tv with
    | nil => rfl
    | cons b bs => simp at h
  | cons a rest ih =>
    cases tv with
    | nil => simp at h
    | cons b bs =>
      simp at h
      simp [applySimpleAnimation, ih bs h]

/-- Claim C2: a simple-mode track with `from` and `to` vectors of equal
length evaluates to exactly the `from` vector at progress 0 and to
exactly the `to` vector at progress 1 (the engine writes this vector to
the target property unchanged, see `stepAnim`). -/
theorem simple_track_endpoints (fv tv : List ℚ) (h : fv.length = tv.length) :
    applySimpleAnimation fv tv 0 = fv ∧ applySimpleAnimation fv tv 1 = tv :=
  ⟨applySimpleAnimation_zero fv tv, applySimpleAnimation_one fv tv h⟩

/-- Witness for C2 at `from = [1,2]`, `to = [5,6]`. -/
theorem simple_track_endpoints_witness :
    ([(1 : ℚ), 2].length = [(5 : ℚ), 6].length) ∧
    (applySimpleAnimation [1, 2] [5, 6] 0 = [1, 2] ∧
     applySimpleAnimation [1, 2] [5, 6] 1 = [5, 6]) :=
  ⟨by decide, simple_track_endpoints [1, 2] [5, 6] (by decide)⟩

/-! ## C10 -/

theorem takeWhile_append_of_all (P : Char → Bool) (l1 l2 : List Char)
    (h : ∀ c ∈ l1, P c = true) :
    (l1 ++ l2).takeWhile P = l1 ++ l2.takeWhile P ∧
    (l1 ++ l2).dropWhile P = l2.dropWhile P := by
  induction l1 with
  | nil => simp
  | cons c cs ih =>
    have hc : P c = true := h c (by simp)
    have ihh := ih (fun d hd => h d (by simp [hd]))
    simp [List.takeWhile_cons, List.dropWhile_cons, hc, ihh.1, ihh.2]

/-- Characterization of the regex match: on a string that splits into a
nonempty all-digit-or-dot part followed by one of the three admissible
unit suffixes, `timeMatch` returns exactly that decomposition. -/
theorem timeMatch_eq (p suf : List Char) (s : String)
    (hs : s.toList = p ++ suf)
    (hne : p ≠ [])
    (hall : ∀ c ∈ p, isTimeChar c = true)
    (hsuf : suf = [] ∨ suf = ['s'] ∨ suf = ['m', 's']) :
    timeMatch s = some (p, suf) := by
  have h := takeWhile_append_of_all isTimeChar p suf hall
  have hsuftw : suf.takeWhile isTimeChar = [] := by
    rcases hsuf with h1 | h1 | h1 <;> rw [h1] <;> decide
  have hsufdw : suf.dropWhile isTimeChar = suf := by
    rcases hsuf with h1 | h1 | h1 <;> rw [h1] <;> decide
  have htw : s.toList.takeWhile isTimeChar = p := by
    rw [hs, h.1, hsuftw, List.append_nil]
  have hdw : s.toList.dropWhile isTimeChar = suf := by
    rw [hs, h.2, hsufdw]
  simp only [timeMatch]
  rw [htw, hdw, if_neg hne, if_pos hsuf]

/-- Claim C10: `parseTime` returns the numeric value of the digit-or-dot
group for inputs of the regex form — bare `X` and `Xs` give `X` seconds,
`Xms` gives `X/1000` — and returns 0 for any string that does not match
the form (the examples of the claim, `click` and `2min`, and generally
every string the regex rejects).  Hence a non-conforming `begin` or `dur`
attribute is treated as 0 seconds rather than rejected. -/
theorem parseTime_numeric_and_fallback (p : List Char) (q : ℚ)
    (hne : p ≠ [])
    (hall : ∀ c ∈ p, isTimeChar c = true)
    (hq : parseFloatNum p = some q) :
    parseTime (String.mk p) = some q ∧
    parseTime (String.mk (p ++ ['s'])) = some q ∧
    parseTime (String.mk (p ++ ['m', 's'])) = some (q / 1000) ∧
    parseTime "click" = some 0 ∧
    parseTime "2min" = some 0 ∧
    (∀ s : String, timeMatch s = none → parseTime s = some 0) := by
  have hs0 : (String.mk p).toList = p ++ [] := by simp [String.toList]
  have hs1 : (String.mk (p ++ ['s'])).toList = p ++ ['s'] := by simp [String.toList]
  have hs2 : (String.mk (p ++ ['m', 's'])).toList = p ++ ['m', 's'] := by simp [String.toList]
  have e0 := timeMatch_eq p [] (String.mk p) hs0 hne hall (Or.inl rfl)
  have e1 := timeMatch_eq p ['s'] (String.mk (p ++ ['s'])) hs1 hne hall (Or.inr (Or.inl rfl))
  have e2 := timeMatch_eq p ['m', 's'] (String.mk (p ++ ['m', 's'])) hs2 hne hall
    (Or.inr (Or.inr rfl))
  refine ⟨?_, ?_, ?_, by decide, by decide, ?_⟩
  · simp [parseTime, e0, hq]
  · simp [parseTime, e1, hq]
  · simp [parseTime, e2, hq]
  · intro s hsnone
    simp [parseTime, hsnone]

/-- Witness for C10 at the group `25`: `parseTime` maps `25` and `25s`
to 25 seconds and `25ms` to 1/40 of a second, and the non-conforming
examples to 0. -/
theorem parseTime_numeric_and_fallback_witness :
    (['2', '5'] ≠ ([] : List Char) ∧ (∀ c ∈ ['2', '5'], isTimeChar c = true) ∧
      parseFloatNum ['2', '5'] = some 25) ∧
    (parseTime (String.mk ['2', '5']) = some 25 ∧
     parseTime (String.mk (['2', '5'] ++ ['s'])) = some 25 ∧
     parseTime (String.mk (['2', '5'] ++ ['m', 's'])) = some (25 / 1000) ∧
     parseTime "click" = some 0 ∧
     parseTime "2min" = some 0 ∧
     (∀ s : String, timeMatch s = none → parseTime s = some 0)) :=
  ⟨⟨by decide, by decide, by decide⟩,
    parseTime_numeric_and_fallback ['2', '5'] 25 (by decide) (by decide) (by decide)⟩

/-! ## Registry lemmas -/

theorem writeTarget_fst (r : Registry) (tid attr : String) (v : PropVal) :
    (writeTarget r tid attr v).map Prod.fst = r.map Prod.fst := by
  induction r with
  | nil => rfl
  | cons p rest ih =>
    obtain ⟨id2, node⟩ := p
    by_cases h : tid = id2 <;> simp [writeTarget, h, ih]

theorem writeTarget_missing (r : Registry) (tid attr : String) (v : PropVal)
    (h : alistFind tid r = none) : writeTarget r tid attr v = r := by
  induction r with
  | nil => rfl
  | cons p rest ih =>
    obtain ⟨id2, node⟩ := p
    by_cases h2 : tid = id2
    · simp [alistFind, h2] at h
    · simp [alistFind, h2] at h
      simp [writeTarget, h2, ih h]

theorem alistFind_writeTarget_other (r : Registry) (tid tid2 attr : String) (v : PropVal)
    (h : tid2 ≠ tid) : alistFind tid2 (writeTarget r tid attr v) = alistFind tid2 r := by
  induction r with
  | nil => rfl
  | cons p rest ih =>
    obtain ⟨id2, node⟩ := p
    by_cases h2 : tid = id2
    · subst h2
      simp [writeTarget, alistFind, h, ih]
    · by_cases h3 : tid2 = id2 <;> simp [writeTarget, alistFind, h2, h3, ih]

theorem alistFind_writeTarget_same (r : Registry) (tid attr : String) (v : PropVal) :
    alistFind tid (writeTarget r tid attr v)
      = (alistFind tid r).map (fun node => setPropertyValue node attr v) := by
  induction r with
  | nil => rfl
  | cons p rest ih =>
    obtain ⟨id2, node⟩ := p
    by_cases h : tid = id2 <;> simp [writeTarget, alistFind, h, ih]

theorem getProp_writeTarget_same (r : Registry) (tid attr : String) (v : PropVal)
    (h : (alistFind tid r).isSome) :
    getProp (writeTarget r tid attr v) tid attr = some v := by
  obtain ⟨node, hn⟩ := Option.isSome_iff_exists.mp h
  simp [getProp, alistFind_writeTarget_same, hn, setPropertyValue, alistFind_alistSet_same]

theorem getProp_writeTarget_other (r : Registry) (tid tid2 attr attr2 : String) (v : PropVal)
    (h : ¬(tid2 = tid ∧ attr2 = attr)) :
    getProp (writeTarget r tid attr v) tid2 attr2 = getProp r tid2 attr2 := by
  by_cases h1 : tid2 = tid
  · subst h1
    have h2 : attr2 ≠ attr := fun he => h ⟨rfl, he⟩
    simp [getProp, alistFind_writeTarget_same]
    cases hn : alistFind tid2 r with
    | none => rfl
    | some node => simp [setPropertyValue, alistFind_alistSet_other attr attr2 v node h2]
  · simp [getProp, alistFind_writeTarget_other r tid tid2 attr v h1]

theorem writeTarget_self (r : Registry) (tid attr : String) (v : PropVal)
    (h : getProp r tid attr = some v) : writeTarget r tid attr v = r := by
  induction r with
  | nil => rfl
  | cons p rest ih =>
    obtain ⟨id2, node⟩ := p
    by_cases h2 : tid = id2
    · subst h2
      simp [getProp, alistFind] at h
      simp [writeTarget, setPropertyValue, alistSet_self attr v node h]
    · simp [getProp, alistFind, h2] at h
      simp [writeTarget, h2]
      exact ih h

/-! ## stepAnim equations and preserved fields -/

theorem stepAnim_none (t : ℚ) (r : Registry) (a : Anim)
    (h : alistFind a.targetId r = none) : stepAnim t r a = (r, a) := by
  simp [stepAnim, h]

theorem stepAnim_some (t : ℚ) (r : Registry) (a : Anim) (obj : Node)
    (h : alistFind a.targetId r = some obj) :
    stepAnim t r a =
      if (startedAnim t obj a).isActive then
        (writeTarget r (startedAnim t obj a).targetId (startedAnim t obj a).attributeName
          (trackValue t (startedAnim t obj a)),
         finishAnim t { startedAnim t obj a with
                        elapsed := t - (startedAnim t obj a).startTime })
      else (r, startedAnim t obj a) := by
  simp [stepAnim, h]

/-- The fields of a track that the evaluation (`trackValue`, `progressOf`)
and the registry write read; every branch of `stepAnim` leaves them
untouched. -/
def evalFields (a : Anim) :
    String × String × ℚ × ℚ × List ℚ × List ℚ × Option (List (List ℚ)) × Option (List ℚ) :=
  (a.targetId, a.attributeName, a.startTime, a.duration, a.fromV, a.toV, a.values, a.keyTimes)

theorem startedAnim_evalFields (t : ℚ) (obj : Node) (a : Anim) :
    evalFields (startedAnim t obj a) = evalFields a := by
  unfold startedAnim
  split_ifs <;> rfl

theorem finishAnim_evalFields (t : ℚ) (a : Anim) :
    evalFields (finishAnim t a) = evalFields a := by
  unfold finishAnim
  by_cases h : 1 ≤ progressOf t a
  · rw [if_pos h]
    cases a.repeatCount with
    | indefinite => rfl
    | count n =>
      dsimp only
      split_ifs <;> rfl
  · rw [if_neg h]

theorem trackValue_congr (t : ℚ) (a b : Anim) (h : evalFields a = evalFields b) :
    trackValue t a = trackValue t b := by
  simp only [evalFields, Prod.mk.injEq] at h
  obtain ⟨h1, h2, h3, h4, h5, h6, h7, h8⟩ := h
  simp only [trackValue, progressOf, h3, h4, h5, h6, h7, h8]

theorem stepAnim_evalFields (t : ℚ) (r : Registry) (a : Anim) :
    evalFields (stepAnim t r a).2 = evalFields a := by
  cases h : alistFind a.targetId r with
  | none => rw [stepAnim_none t r a h]
  | some obj =>
    rw [stepAnim_some t r a obj h]
    by_cases h2 : (startedAnim t obj a).isActive
    · rw [if_pos h2]
      show evalFields (finishAnim t _) = _
      rw [finishAnim_evalFields]
      have : evalFields { startedAnim t obj a with
          elapsed := t - (startedAnim t obj a).startTime } = evalFields (startedAnim t obj a) := rfl
      rw [this, startedAnim_evalFields]
    · rw [if_neg h2]
      exact startedAnim_evalFields t obj a

theorem evalFields_targetId (a b : Anim) (h : evalFields a = evalFields b) :
    a.targetId = b.targetId := congrArg (fun x => x.1) h

theorem evalFields_attributeName (a b : Anim) (h : evalFields a = evalFields b) :
    a.attributeName = b.attributeName := congrArg (fun x => x.2.1) h

/-- The registry after one track step is either untouched or a single
write to the slot of that track. -/
theorem stepAnim_reg_cases (t : ℚ) (r : Registry) (a : Anim) :
    (stepAnim t r a).1 = r ∨
    ∃ v, (stepAnim t r a).1 = writeTarget r a.targetId a.attributeName v := by
  cases h : alistFind a.targetId r with
  | none => left; rw [stepAnim_none t r a h]
  | some obj =>
    rw [stepAnim_some t r a obj h]
    by_cases h2 : (startedAnim t obj a).isActive
    · right
      refine ⟨trackValue t (startedAnim t obj a), ?_⟩
      rw [if_pos h2]
      have he := startedAnim_evalFields t obj a
      rw [evalFields_targetId _ _ he, evalFields_attributeName _ _ he]
    · left; rw [if_neg h2]

theorem stepAnim_reg_fst (t : ℚ) (r : Registry) (a : Anim) :
    ((stepAnim t r a).1).map Prod.fst = r.map Prod.fst := by
  rcases stepAnim_reg_cases t r a with h | ⟨v, h⟩
  · rw [h]
  · rw [h, writeTarget_fst]

theorem stepAnim_getProp_other (t : ℚ) (r : Registry) (a : Anim) (tid attr : String)
    (h : ¬(tid = a.targetId ∧ attr = a.attributeName)) :
    getProp (stepAnim t r a).1 tid attr = getProp r tid attr := by
  rcases stepAnim_reg_cases t r a with h2 | ⟨v, h2⟩
  · rw [h2]
  · rw [h2, getProp_writeTarget_other _ _ _ _ _ _ h]

/-! ## stepAll lemmas -/

theorem stepAll_cons (t : ℚ) (k : String) (a : Anim) (rest : List (String × Anim))
    (r : Registry) :
    stepAll t ((k, a) :: rest) r =
      ((k, (stepAnim t r a).2) :: (stepAll t rest (stepAnim t r a).1).1,
       (stepAll t rest (stepAnim t r a).1).2) := rfl

theorem stepAll_reg_fst (t : ℚ) (l : List (String × Anim)) (r : Registry) :
    ((stepAll t l r).2).map Prod.fst = r.map Prod.fst := by
  induction l generalizing r with
  | nil => rfl
  | cons p rest ih =>
    obtain ⟨k, a⟩ := p
    rw [stepAll_cons]
    simp only
    rw [ih, stepAnim_reg_fst]

theorem stepAll_getProp_other (t : ℚ) (l : List (String × Anim)) (r : Registry)
    (tid attr : String)
    (h : ∀ p ∈ l, ¬(tid = p.2.targetId ∧ attr = p.2.attributeName)) :
    getProp (stepAll t l r).2 tid attr = getProp r tid attr := by
  induction l generalizing r with
  | nil => rfl
  | cons p rest ih =>
    obtain ⟨k, a⟩ := p
    rw [stepAll_cons]
    simp only
    rw [ih _ (fun q hq => h q (by simp [hq])),
        stepAnim_getProp_other t r a tid attr (h (k, a) (by simp))]

theorem stepAll_fst (t : ℚ) (l : List (String × Anim)) (r : Registry) :
    ((stepAll t l r).1).map Prod.fst = l.map Prod.fst := by
  induction l generalizing r with
  | nil => rfl
  | cons p rest ih =>
    obtain ⟨k, a⟩ := p
    rw [stepAll_cons]
    simp [ih]

theorem stepAll_slots (t : ℚ) (l : List (String × Anim)) (r : Registry) :
    ((stepAll t l r).1).map (fun p => (p.2.targetId, p.2.attributeName))
      = l.map (fun p => (p.2.targetId, p.2.attributeName)) := by
  induction l generalizing r with
  | nil => rfl
  | cons p rest ih =>
    obtain ⟨k, a⟩ := p
    rw [stepAll_cons]
    have he := stepAnim_evalFields t r a
    simp [ih, evalFields_targetId _ _ he, evalFields_attributeName _ _ he]

theorem stepAll_append (t : ℚ) (l1 l2 : List (String × Anim)) (r : Registry) :
    stepAll t (l1 ++ l2) r =
      ((stepAll t l1 r).1 ++ (stepAll t l2 (stepAll t l1 r).2).1,
       (stepAll t l2 (stepAll t l1 r).2).2) := by
  induction l1 generalizing r with
  | nil => rfl
  | cons p rest ih =>
    obtain ⟨k, a⟩ := p
    rw [List.cons_append, stepAll_cons, stepAll_cons, ih]
    simp

/-! ## C9 -/

/-- Well-formedness of the `activeAnimations` map as maintained by the
engine API: the JS `Map` has pairwise distinct keys, and every entry
sits under the key `registerAnimation` built for it,
`targetId + "-" + attributeName`. -/
def EngineKeysWF (l : List (String × Anim)) : Prop :=
  (l.map Prod.fst).Nodup ∧
  ∀ p ∈ l, p.1 = p.2.targetId ++ "-" ++ p.2.attributeName

/-- Number of registered track states for one `(targetId, propertyPath)`
pair. -/
def pairCount (l : List (String × Anim)) (tid attr : String) : ℕ :=
  (l.filter (fun p => decide (p.2.targetId = tid ∧ p.2.attributeName = attr))).length

theorem alistFind_eq_none_iff {α : Type} (k : String) (l : List (String × α)) :
    alistFind k l = none ↔ k ∉ l.map Prod.fst := by
  induction l with
  | nil => simp [alistFind]
  | cons p rest ih =>
    by_cases h : k = p.1
    · simp [alistFind, h]
    · simp [alistFind, h, ih]

theorem alistSet_append_of_not_mem {α : Type} (k : String) (v : α) (l : List (String × α))
    (h : alistFind k l = none) : alistSet k v l = l ++ [(k, v)] := by
  induction l with
  | nil => rfl
  | cons p rest ih =>
    by_cases h2 : k = p.1
    · simp [alistFind, h2] at h
    · simp [alistFind, h2] at h
      simp [alistSet, h2, ih h]

theorem mem_alistSet {α : Type} (k : String) (v : α) (l : List (String × α))
    (p : String × α) (h : p ∈ alistSet k v l) : p = (k, v) ∨ p ∈ l := by
  induction l with
  | nil => simp [alistSet] at h; simp [h]
  | cons q rest ih =>
    by_cases h2 : k = q.1
    · rw [alistSet, if_pos h2] at h
      rcases List.mem_cons.mp h with h3 | h3
      · exact Or.inl h3
      · exact Or.inr (List.mem_cons_of_mem q h3)
    · rw [alistSet, if_neg h2] at h
      rcases List.mem_cons.mp h with h3 | h3
      · exact Or.inr (by simp [h3])
      · rcases ih h3 with h4 | h4
        · exact Or.inl h4
        · exact Or.inr (by simp [h4])

theorem pairCount_le_one_of_WF (l : List (String × Anim)) (h : EngineKeysWF l)
    (tid attr : String) : pairCount l tid attr ≤ 1 := by
  obtain ⟨hnd, hkeys⟩ := h
  induction l with
  | nil => simp [pairCount]
  | cons p rest ih =>
    rw [List.map_cons, List.nodup_cons] at hnd
    by_cases hp : p.2.targetId = tid ∧ p.2.attributeName = attr
    · have hrest : pairCount rest tid attr = 0 := by
        rw [pairCount, List.length_eq_zero, List.filter_eq_nil_iff]
        intro q hq
        simp only [decide_eq_true_eq]
        rintro ⟨hq1, hq2⟩
        have hqk := hkeys q (List.mem_cons_of_mem p hq)
        have hpk := hkeys p (List.mem_cons_self p rest)
        have heq : p.1 = q.1 := by rw [hpk, hqk, hp.1, hp.2, hq1, hq2]
        apply hnd.1
        rw [heq]
        exact List.mem_map_of_mem Prod.fst hq
      rw [pairCount, List.filter_cons, if_pos (by simp [hp])]
      simp only [List.length_cons]
      rw [pairCount] at hrest
      omega
    · rw [pairCount, List.filter_cons, if_neg (by simp [hp])]
      exact ih hnd.2 (fun q hq => hkeys q (List.mem_cons_of_mem p hq))

theorem registerAnimation_WF (e : Engine) (tid : String) (d : AnimationData)
    (h : EngineKeysWF e.activeAnimations) :
    EngineKeysWF (registerAnimation e tid d).activeAnimations := by
  obtain ⟨hnd, hkeys⟩ := h
  constructor
  · show ((alistSet (tid ++ "-" ++ d.attributeName) _ e.activeAnimations).map Prod.fst).Nodup
    cases hf : alistFind (tid ++ "-" ++ d.attributeName) e.activeAnimations with
    | some a0 =>
      rw [alistSet_keys _ _ _ (by simp [hf])]
      exact hnd
    | none =>
      rw [alistSet_append_of_not_mem _ _ _ hf]
      have hk : (tid ++ "-" ++ d.attributeName) ∉ e.activeAnimations.map Prod.fst :=
        (alistFind_eq_none_iff _ _).mp hf
      simp only [List.map_append, List.map_cons, List.map_nil]
      rw [List.nodup_append]
      refine ⟨hnd, List.nodup_singleton _, ?_⟩
      intro x hx
      simp only [List.mem_singleton]
      intro he
      exact hk (he ▸ hx)
  · intro p hp
    rcases mem_alistSet _ _ _ p hp with h1 | h1
    · rw [h1]
    · exact hkeys p h1

theorem stepAll_keys_prop (t : ℚ) (l : List (String × Anim)) (r : Registry)
    (h : ∀ p ∈ l, p.1 = p.2.targetId ++ "-" ++ p.2.attributeName) :
    ∀ p ∈ (stepAll t l r).1, p.1 = p.2.targetId ++ "-" ++ p.2.attributeName := by
  induction l generalizing r with
  | nil => intro p hp; simp [stepAll] at hp
  | cons q rest ih =>
    obtain ⟨k, a⟩ := q
    intro p hp
    rw [stepAll_cons] at hp
    rcases List.mem_cons.mp hp with h1 | h1
    · have he := stepAnim_evalFields t r a
      rw [h1]
      show k = _
      rw [evalFields_targetId _ _ he, evalFields_attributeName _ _ he]
      exact h (k, a) (List.mem_cons_self _ _)
    · exact ih _ (fun q2 hq2 => h q2 (List.mem_cons_of_mem _ hq2)) p h1

theorem update_WF (e : Engine) (d : ℚ) (r : Registry)
    (h : EngineKeysWF e.activeAnimations) :
    EngineKeysWF (update e d r).1.activeAnimations := by
  obtain ⟨hnd, hkeys⟩ := h
  constructor
  · show (((stepAll (e.clock.time + d) e.activeAnimations r).1).map Prod.fst).Nodup
    rw [stepAll_fst]
    exact hnd
  · exact stepAll_keys_prop _ _ _ hkeys

/-- Claim C9: at most one track state exists per `(targetId, propertyPath)`
pair.  For any well-formed map (distinct keys, each entry under the key
built from its pair — the state every engine reachable through
`registerAnimation` and `update` is in), every pair owns at most one
entry; a second registration for an existing pair replaces the entry in
place, keeping the map size; and both `registerAnimation` and `update`
preserve well-formedness. -/
theorem track_state_unique_per_pair (e : Engine) (tid attr : String) (d : AnimationData)
    (dlt : ℚ) (r : Registry) (h : EngineKeysWF e.activeAnimations) :
    pairCount e.activeAnimations tid attr ≤ 1 ∧
    ((alistFind (tid ++ "-" ++ d.attributeName) e.activeAnimations).isSome →
      (registerAnimation e tid d).activeAnimations.length = e.activeAnimations.length) ∧
    EngineKeysWF (registerAnimation e tid d).activeAnimations ∧
    EngineKeysWF (update e dlt r).1.activeAnimations := by
  refine ⟨pairCount_le_one_of_WF _ h tid attr, ?_, registerAnimation_WF e tid d h,
    update_WF e dlt r h⟩
  intro hmem
  exact alistSet_length_of_mem _ _ _ hmem

/-- The track state `rotEngine` stores, with its time strings parsed. -/
def rotAnimState : Anim :=
  { targetId := "box", attributeName := "rotation", fromV := [0, 0, 0], toV := [0, 157/25, 0],
    values := none, keyTimes := none, startTime := 0, duration := 8,
    repeatCount := .indefinite, fill := "freeze", startValue := none,
    isActive := false, hasStarted := false, elapsed := 0 }

theorem rotEngine_anims : rotEngine.activeAnimations = [("box-rotation", rotAnimState)] := by
  with_unfolding_all rfl

/-- Witness for C9 on the engine holding the registered indefinite
rotation track, a second registration for the same pair, and an
advance(4). -/
theorem track_state_unique_per_pair_witness :
    EngineKeysWF rotEngine.activeAnimations ∧
    (pairCount rotEngine.activeAnimations "box" "rotation" ≤ 1 ∧
     ((alistFind ("box" ++ "-" ++ zeroDeltaData.attributeName)
         rotEngine.activeAnimations).isSome →
       (registerAnimation rotEngine "box" zeroDeltaData).activeAnimations.length
         = rotEngine.activeAnimations.length) ∧
     EngineKeysWF (registerAnimation rotEngine "box" zeroDeltaData).activeAnimations ∧
     EngineKeysWF (update rotEngine 4 rotRegistry).1.activeAnimations) := by
  have hwf : EngineKeysWF rotEngine.activeAnimations := by
    rw [rotEngine_anims]
    constructor
    · decide
    · intro p hp
      rw [List.eq_of_mem_singleton hp]
      rfl
  exact ⟨hwf, track_state_unique_per_pair rotEngine "box" "rotation" zeroDeltaData
    4 rotRegistry hwf⟩

/-! ## C8 -/

theorem alistFind_none_of_reg_fst {r r2 : Registry} (x : String)
    (hk : r2.map Prod.fst = r.map Prod.fst) (h : alistFind x r = none) :
    alistFind x r2 = none := by
  have := alistFind_isSome_of_keys_eq x r2 r hk
  rw [h] at this
  simp at this
  exact Option.not_isSome_iff_eq_none.mp (by simp [this])

/-- Claim C8: a registered track whose `targetId` is absent from the node
registry is silently skipped by `update`: its own state is carried over
unchanged, no error value exists (the per-track body just returns), the
resulting registry is exactly the one produced by the engine without that
track, and every other track is evaluated and applied as usual, in the
same order. -/
theorem missing_target_skipped (e : Engine) (d : ℚ) (r : Registry)
    (l1 l2 : List (String × Anim)) (k : String) (a : Anim)
    (he : e.activeAnimations = l1 ++ (k, a) :: l2)
    (h : alistFind a.targetId r = none) :
    (update e d r).2 = (update { e with activeAnimations := l1 ++ l2 } d r).2 ∧
    (update e d r).1.activeAnimations =
      (stepAll (e.clock.time + d) l1 r).1 ++ (k, a) ::
        (stepAll (e.clock.time + d) l2 (stepAll (e.clock.time + d) l1 r).2).1 ∧
    (update e d r).1.clock = (update { e with activeAnimations := l1 ++ l2 } d r).1.clock := by
  have hmiss : alistFind a.targetId (stepAll (e.clock.time + d) l1 r).2 = none :=
    alistFind_none_of_reg_fst a.targetId (stepAll_reg_fst _ _ _) h
  have hstep : stepAnim (e.clock.time + d) (stepAll (e.clock.time + d) l1 r).2 a
      = ((stepAll (e.clock.time + d) l1 r).2, a) :=
    stepAnim_none _ _ _ hmiss
  refine ⟨?_, ?_, rfl⟩
  · show (stepAll (e.clock.time + d) e.activeAnimations r).2
        = (stepAll (e.clock.time + d) (l1 ++ l2) r).2
    rw [he, stepAll_append, stepAll_append, stepAll_cons, hstep]
  · show (stepAll (e.clock.time + d) e.activeAnimations r).1 = _
    rw [he, stepAll_append, stepAll_cons, hstep]

/-- Witness for C8: the engine of the indefinite rotation track driven
against a registry that does not contain `box`; the track is skipped and
an engine with no tracks produces the same registry. -/
theorem missing_target_skipped_witness :
    (rotEngine.activeAnimations = [] ++ ("box-rotation", rotAnimState) :: [] ∧
     alistFind rotAnimState.targetId [("other", ([] : Node))] = none) ∧
    ((update rotEngine 4 [("other", [])]).2
        = (update { rotEngine with activeAnimations := [] ++ [] } 4 [("other", [])]).2 ∧
     (update rotEngine 4 [("other", [])]).1.activeAnimations =
       (stepAll (rotEngine.clock.time + 4) [] [("other", [])]).1 ++ ("box-rotation", rotAnimState) ::
         (stepAll (rotEngine.clock.time + 4) []
           (stepAll (rotEngine.clock.time + 4) [] [("other", [])]).2).1 ∧
     (update rotEngine 4 [("other", [])]).1.clock
        = (update { rotEngine with activeAnimations := [] ++ [] } 4 [("other", [])]).1.clock) :=
  ⟨⟨by rw [rotEngine_anims]; rfl, by with_unfolding_all rfl⟩,
    missing_target_skipped rotEngine 4 [("other", [])] [] [] "box-rotation" rotAnimState
      (by rw [rotEngine_anims]; rfl) (by with_unfolding_all rfl)⟩

/-! ## C5 -/

/-- Stepping a track that has already been stepped at the same clock time
leaves any registry unchanged, provided the registry agrees with the
post-step registry on the presence of the target and on the value of the
written slot: the re-evaluation recomputes the same progress (startTime
and duration are never modified) and rewrites the value already there,
or does not write at all. -/
theorem stepAnim_stable (t : ℚ) (r r2 : Registry) (a : Anim)
    (hkeys : (alistFind a.targetId r2).isSome = (alistFind a.targetId r).isSome)
    (hval : getProp r2 a.targetId a.attributeName
            = getProp (stepAnim t r a).1 a.targetId a.attributeName) :
    (stepAnim t r2 (stepAnim t r a).2).1 = r2 := by
  cases hfind : alistFind a.targetId r with
  | none =>
    rw [stepAnim_none t r a hfind]
    have h2 : alistFind a.targetId r2 = none := by
      rw [hfind] at hkeys
      simp at hkeys
      exact Option.not_isSome_iff_eq_none.mp (by simp [hkeys])
    rw [stepAnim_none t r2 a h2]
  | some obj =>
    have hsome2 : ∃ obj2, alistFind a.targetId r2 = some obj2 := by
      rw [hfind] at hkeys
      simp at hkeys
      exact Option.isSome_iff_exists.mp hkeys
    obtain ⟨obj2, hfind2⟩ := hsome2
    rw [stepAnim_some t r a obj hfind] at hval ⊢
    by_cases hact : (startedAnim t obj a).isActive
    · rw [if_pos hact] at hval ⊢
      dsimp only at hval ⊢
      have hea1 := startedAnim_evalFields t obj a
      have htid1 : (startedAnim t obj a).targetId = a.targetId :=
        evalFields_targetId _ _ hea1
      have hattr1 : (startedAnim t obj a).attributeName = a.attributeName :=
        evalFields_attributeName _ _ hea1
      rw [htid1, hattr1,
        getProp_writeTarget_same r a.targetId a.attributeName _ (by simp [hfind])] at hval
      set b := finishAnim t
        { startedAnim t obj a with elapsed := t - (startedAnim t obj a).startTime } with hb
      have heb : evalFields b = evalFields a := by
        rw [hb, finishAnim_evalFields]
        exact hea1
      have htidb : b.targetId = a.targetId := evalFields_targetId _ _ heb
      have hfindb : alistFind b.targetId r2 = some obj2 := by rw [htidb]; exact hfind2
      rw [stepAnim_some t r2 b obj2 hfindb]
      have heab := startedAnim_evalFields t obj2 b
      by_cases hact2 : (startedAnim t obj2 b).isActive
      · rw [if_pos hact2]
        dsimp only
        have htid4 : (startedAnim t obj2 b).targetId = a.targetId := by
          rw [evalFields_targetId _ _ heab, htidb]
        have hattr4 : (startedAnim t obj2 b).attributeName = a.attributeName := by
          rw [evalFields_attributeName _ _ heab, evalFields_attributeName _ _ heb]
        have hv : trackValue t (startedAnim t obj2 b) = trackValue t (startedAnim t obj a) := by
          apply trackValue_congr
          rw [heab, heb]
          exact hea1.symm
        rw [htid4, hattr4, hv]
        exact writeTarget_self _ _ _ _ hval
      · rw [if_neg hact2]
    · rw [if_neg hact] at hval ⊢
      dsimp only at hval ⊢
      have hcond : ¬(¬a.hasStarted = true ∧ a.startTime ≤ t) := by
        intro hc
        apply hact
        unfold startedAnim
        rw [if_pos hc]
      have ha1 : startedAnim t obj a = a := by
        unfold startedAnim
        rw [if_neg hcond]
      rw [ha1]
      have hnact : ¬a.isActive = true := by rw [← ha1]; exact hact
      rw [stepAnim_some t r2 a obj2 hfind2]
      have ha2 : startedAnim t obj2 a = a := by
        unfold startedAnim
        rw [if_neg hcond]
      rw [ha2, if_neg hnact]

/-- A full `forEach` pass at clock time `t` is idempotent on the
registry when the registered tracks have pairwise distinct
`(targetId, attributeName)` slots: replaying the pass rewrites, per
track, exactly the value the first pass left in that slot. -/
theorem stepAll_idem (t : ℚ) (l : List (String × Anim)) (r : Registry)
    (hd : (l.map (fun p => (p.2.targetId, p.2.attributeName))).Nodup) :
    (stepAll t (stepAll t l r).1 (stepAll t l r).2).2 = (stepAll t l r).2 := by
  induction l generalizing r with
  | nil => rfl
  | cons p rest ih =>
    obtain ⟨k, a⟩ := p
    simp only [List.map_cons, List.nodup_cons] at hd
    obtain ⟨hnotin, hdrest⟩ := hd
    rw [stepAll_cons, stepAll_cons]
    dsimp only
    have hstable : (stepAnim t (stepAll t rest (stepAnim t r a).1).2 (stepAnim t r a).2).1
        = (stepAll t rest (stepAnim t r a).1).2 := by
      apply stepAnim_stable
      · have h1 := stepAll_reg_fst t rest (stepAnim t r a).1
        have h2 := stepAnim_reg_fst t r a
        exact alistFind_isSome_of_keys_eq a.targetId _ _ (by rw [h1, h2])
      · apply stepAll_getProp_other
        intro q hq hcontra
        apply hnotin
        have hslot : (a.targetId, a.attributeName) = (q.2.targetId, q.2.attributeName) := by
          rw [hcontra.1, hcontra.2]
        rw [hslot]
        exact List.mem_map_of_mem _ hq
    rw [hstable]
    exact ih _ hdrest

/-- Claim C5 counterexample: `advance(0, registry)` is not harmless on
the first call.  The registered track (from `[0,0,0]`, begin 0) is due
at clock 0, so a single advance(0) starts it and writes its progress-0
value: the rotation of `box` changes from `[5,5,5]` to `[0,0,0]`. -/
theorem advance_zero_first_call_mutates :
    getProp zeroDeltaRegistry "box" "rotation" = some (some [5, 5, 5]) ∧
    getProp (update zeroDeltaEngine 0 zeroDeltaRegistry).2 "box" "rotation"
      = some (some [0, 0, 0]) := by
  constructor <;> with_unfolding_all rfl

/-- Claim C5, amended: advance(0) is idempotent on node properties only
after the first call.  The first advance(0) may mutate nodes (it starts
tracks whose begin time has been reached and writes their value, see the
counterexample); once one advance(0) has run, every further advance(0)
leaves the whole registry exactly unchanged — for any engine state whose
tracks target pairwise distinct `(targetId, propertyPath)` slots, the
state every engine built through the registration API is in. -/
theorem advance_zero_idempotent_after_first (e : Engine) (r : Registry)
    (hd : (e.activeAnimations.map (fun p => (p.2.targetId, p.2.attributeName))).Nodup) :
    (update (update e 0 r).1 0 (update e 0 r).2).2 = (update e 0 r).2 := by
  show (stepAll ((e.clock.time + 0) + 0) (stepAll (e.clock.time + 0) e.activeAnimations r).1
        (stepAll (e.clock.time + 0) e.activeAnimations r).2).2
      = (stepAll (e.clock.time + 0) e.activeAnimations r).2
  simp only [add_zero]
  exact stepAll_idem e.clock.time e.activeAnimations r hd

/-- Witness for C5 (amended) on the indefinite rotation engine: a second
advance(0) after a first advance(0) returns the registry unchanged. -/
theorem advance_zero_idempotent_after_first_witness :
    (rotEngine.activeAnimations.map (fun p => (p.2.targetId, p.2.attributeName))).Nodup ∧
    (update (update rotEngine 0 rotRegistry).1 0 (update rotEngine 0 rotRegistry).2).2
      = (update rotEngine 0 rotRegistry).2 := by
  have hd : (rotEngine.activeAnimations.map
      (fun p => (p.2.targetId, p.2.attributeName))).Nodup := by
    rw [rotEngine_anims]
    decide
  exact ⟨hd, advance_zero_idempotent_after_first rotEngine rotRegistry hd⟩

end SVG3
